import Mathlib

/-!
Verification of the two-phase analyze/categorize pipeline implemented in
`src/app/api/analyze/route.ts` (the `POST` handler: ingestion, per-item
analysis with parse recovery, category synthesis with theme fallback, and
final result assembly).

The embedding is a shallow one:

* Parsed JSON values are modelled by the inductive `JVal`; JSON numbers are
  modelled as exact rationals (`ℚ`), which covers every finite value the
  collaborator can return.
* The two external collaborators — the inference service (`generateContent`)
  and the platform's `JSON.parse` — are parameters: an `Oracles` record of
  raw responses (`Except Unit String`, `.error` meaning the call threw) and
  a function `jp : String → Option JVal` (`none` meaning `JSON.parse` threw).
  Every universally quantified theorem quantifies over both.
* JavaScript coercion semantics used by the route (truthiness, `Number(..)`,
  `String(..)`, `||` defaults, `Math.min`/`Math.max`, `Array.includes`,
  `Object.entries`, property access throwing on `null`) are modelled
  explicitly below.  String manipulation is carried out on `List Char` so
  that every definition evaluates inside the kernel.
* The binary image payload, the HEIC transcoding and the prompt texts are
  routed only to the external inference collaborator and do not influence
  any observable modelled here; items therefore keep only their (optional)
  original file name.
-/

/-- A parsed JSON value, as produced by the `JSON.parse` collaborator.
Object fields are kept as an ordered association list (insertion order,
which is the iteration order `Object.entries` exposes for the
non-numeric keys this pipeline produces). -/
inductive JVal where
  | str : String → JVal
  | num : ℚ → JVal
  | bool : Bool → JVal
  | null : JVal
  | arr : List JVal → JVal
  | obj : List (String × JVal) → JVal

/-- JavaScript truthiness of a value ( `""`, `0`, `false`, `null` are falsy;
arrays and objects are always truthy). -/
def truthyV : JVal → Bool
  | .str s => s ≠ ""
  | .num q => q ≠ 0
  | .bool b => b
  | .null => false
  | .arr _ => true
  | .obj _ => true

/-- JavaScript truthiness of a possibly-undefined value (`none` = `undefined`). -/
def truthy : Option JVal → Bool
  | none => false
  | some v => truthyV v

/-- Property access `v.k`: `undefined` (`none`) on every non-object and on
objects lacking the key.  Access on `null` throws in JavaScript; the call
sites below model that throw explicitly before using `getField`. -/
def getField (v : JVal) (k : String) : Option JVal :=
  match v with
  | .obj fields => (fields.find? (fun p => p.1 == k)).map Prod.snd
  | _ => none

/-- Whitespace characters recognised by the model (the ones occurring in
inference responses; a subset of JavaScript's `\s`). -/
def isWs (c : Char) : Bool := c = ' ' || c = '\n' || c = '\t' || c = '\r'

/-- `String.prototype.trim` on the character list. -/
def trimChars (l : List Char) : List Char :=
  ((l.dropWhile isWs).reverse.dropWhile isWs).reverse

/-- Is `pat` a prefix of `l`? -/
def startsWithL : List Char → List Char → Bool
  | [], _ => true
  | _ :: _, [] => false
  | p :: ps, c :: cs => p = c && startsWithL ps cs

/-- Does `l` contain `pat` as a contiguous run (JS `String.prototype.includes`)? -/
def containsL (pat : List Char) : List Char → Bool
  | [] => startsWithL pat []
  | c :: rest => startsWithL pat (c :: rest) || containsL pat rest

/-- Does `l` end with `pat`? -/
def endsWithL (pat l : List Char) : Bool :=
  startsWithL pat.reverse l.reverse

/-- Drop one optional leading newline (the `\n?` part of the fence-stripping
regexes). -/
def dropOptNl : List Char → List Char
  | '\n' :: more => more
  | l => l

/-- One global-regex replacement pass `s.replace(/TOK\n?/g, '')` for a fixed
non-empty token `t0 :: ts`: scan left to right, and at each match remove the
token together with one optional following newline, continuing after it.
The fuel argument starts at the input length and every recursive call both
spends one fuel and strictly shortens the list, so the fuel-exhausted case
is unreachable. -/
def stripAllAux (t0 : Char) (ts : List Char) : Nat → List Char → List Char
  | _, [] => []
  | 0, l => l
  | fuel + 1, c :: rest =>
    if startsWithL (t0 :: ts) (c :: rest) then
      stripAllAux t0 ts fuel (dropOptNl (rest.drop ts.length))
    else
      c :: stripAllAux t0 ts fuel rest

/-- `s.replace(/tok\n?/g, '')`; the identity for an empty token. -/
def stripAll (tok : List Char) (l : List Char) : List Char :=
  match tok with
  | [] => l
  | t0 :: ts => stripAllAux t0 ts l.length l

/-- The anchored replacement `s.replace(/^json\n?/g, '')` (greedy: the
newline variant is preferred). -/
def stripLeadingJson (l : List Char) : List Char :=
  if startsWithL "json\n".data l then l.drop 5
  else if startsWithL "json".data l then l.drop 4
  else l

/-- Response cleaning used by both phases (route lines 339–344 and 435–440):
trim, strip Markdown code fences (with optional trailing newline), strip a
leading bare `json` tag, trim again. -/
def cleanResponse (raw : String) : String :=
  let t1 := trimChars raw.data
  let t2 := stripAll "```json".data t1
  let t3 := stripAll "```".data t2
  let t4 := stripLeadingJson t3
  ⟨trimChars t4⟩

/-- The greedy match of `/\{[\s\S]*\}/`: from the first opening brace to the
last closing brace, provided the latter comes strictly after the former. -/
def extractBraces (s : String) : Option String :=
  let l := s.data
  match l.findIdx? (fun c => c = Char.ofNat 123) with
  | none => none
  | some i =>
    match l.reverse.findIdx? (fun c => c = Char.ofNat 125) with
    | none => none
    | some r =>
      let j := l.length - 1 - r
      if i < j then some ⟨(l.drop i).take (j - i + 1)⟩ else none

/-- A JavaScript number that may be `NaN`. -/
inductive JNum where
  | nan : JNum
  | val : ℚ → JNum

/-- Digits-to-number accumulator. -/
def digitsToNat : List Char → Nat → Nat
  | [], acc => acc
  | c :: r, acc => digitsToNat r (acc * 10 + (c.toNat - '0'.toNat))

/-- Decimal literal `digits [ '.' digits ]` (either side of the point may be
empty, but not both), fully consuming the input. -/
def parseDecimal (l : List Char) : Option ℚ :=
  let intPart := l.takeWhile Char.isDigit
  let rest := l.dropWhile Char.isDigit
  match rest with
  | [] => if intPart.isEmpty then none else some (digitsToNat intPart 0)
  | '.' :: frac =>
    if frac.all Char.isDigit && !(intPart.isEmpty && frac.isEmpty) then
      some ((digitsToNat intPart 0 : ℚ) + (digitsToNat frac 0 : ℚ) / (10 ^ frac.length))
    else none
  | _ => none

/-- `Number(s)` for a string: trimmed empty string is `0`, optionally signed
decimal literals convert, anything else is `NaN`.  (Exponent and radix
prefixes, which the pipeline never meets, are conservatively `NaN`.) -/
def strToNum (s : String) : JNum :=
  match trimChars s.data with
  | [] => .val 0
  | '-' :: rest => match parseDecimal rest with
    | some q => .val (-q)
    | none => .nan
  | '+' :: rest => match parseDecimal rest with
    | some q => .val q
    | none => .nan
  | l => match parseDecimal l with
    | some q => .val q
    | none => .nan

/-- Decimal rendering of a rational for `String(..)`; exact on the integer
values the pipeline stringifies. -/
def qToString (q : ℚ) : String :=
  if q.den = 1 then toString q.num else toString q

mutual

/-- `String(v)` conversion (route uses it on the analysis fields). -/
def jsToString : JVal → String
  | .str s => s
  | .num q => qToString q
  | .bool b => if b then "true" else "false"
  | .null => "null"
  | .arr l => String.intercalate "," (jsArrParts l)
  | .obj _ => "[object Object]"

/-- `Array.prototype.join` parts: `null` elements render as the empty string. -/
def jsArrParts : List JVal → List String
  | [] => []
  | .null :: rest => "" :: jsArrParts rest
  | v :: rest => jsToString v :: jsArrParts rest

end

/-- `Number(v)` on a possibly-undefined value: `undefined ↦ NaN`,
`null ↦ 0`, booleans to `0`/`1`, strings through `strToNum`, arrays through
their string form, objects to `NaN`. -/
def jsNumber : Option JVal → JNum
  | none => .nan
  | some .null => .val 0
  | some (.bool b) => .val (if b then 1 else 0)
  | some (.num q) => .val q
  | some (.str s) => strToNum s
  | some (.arr l) => strToNum (jsToString (.arr l))
  | some (.obj _) => .nan

/-- `Math.min`. -/
def jsMin (a b : ℚ) : ℚ := if a ≤ b then a else b

/-- `Math.max`. -/
def jsMax (a b : ℚ) : ℚ := if a ≤ b then b else a

/-- `String(v || dflt)` where `dflt` is a string literal. -/
def jsStringOr (v : Option JVal) (dflt : String) : String :=
  match v with
  | some jv => if truthyV jv then jsToString jv else dflt
  | none => dflt

/-- `.replace(/\s+/g, '_')` scanner: `inRun` records whether the previous
character belonged to a whitespace run already replaced. -/
def collapseWsAux (inRun : Bool) : List Char → List Char
  | [] => []
  | c :: rest =>
    if isWs c then
      if inRun then collapseWsAux true rest
      else '_' :: collapseWsAux true rest
    else c :: collapseWsAux false rest

/-- `.replace(/\s+/g, '_')`: each maximal whitespace run becomes one underscore. -/
def collapseWs (l : List Char) : List Char := collapseWsAux false l

/-- `.toLowerCase()` (character-wise, as for the ASCII slugs the route handles). -/
def jsLower (s : String) : String := ⟨s.data.map Char.toLower⟩

/-! ## Per-item analyzer (PHASE 1, route lines 315–390) -/

/-- One analysed item, as produced by PHASE 1 (route lines 369–376 on
success, 380–387 on a thrown inference call). -/
structure InitialAnalysis where
  index : Nat
  content : String
  extracted_text : String
  main_theme : String
  confidence : ℚ
deriving DecidableEq

/-- The fixed parse-failure fallback object (route lines 360–365). -/
def fallbackJson (index : Nat) : JVal :=
  .obj [("content", .str s!"image_document_{index + 1}"),
        ("extracted_text", .str "Could not extract text"),
        ("main_theme", .str "misc"),
        ("confidence", .num 20)]

/-- The per-item three-step parse recovery (route lines 346–367): direct
parse; on throw, extract the brace-delimited run and re-parse (a falsy
re-parse result is replaced by the fallback, mirroring `if (!analysis)`);
otherwise the fallback object. -/
def parseWithRecovery (jp : String → Option JVal) (clean : String) (index : Nat) : JVal :=
  match jp clean with
  | some a => a
  | none =>
    match extractBraces clean with
    | some sub =>
      match jp sub with
      | some a => if truthyV a then a else fallbackJson index
      | none => fallbackJson index
    | none => fallbackJson index

/-- `Math.min(100, Math.max(0, Number(analysis.confidence) || 50))`
(route line 374). -/
def clampConfidence (v : Option JVal) : ℚ :=
  let base : ℚ :=
    match jsNumber v with
    | .nan => 50
    | .val q => if q = 0 then 50 else q
  jsMin 100 (jsMax 0 base)

/-- The error-path record (route lines 380–387): fixed content slug,
`"Processing failed"`, theme `"misc"`, confidence `0`. -/
def errorAnalysis (index : Nat) : InitialAnalysis :=
  { index := index
    content := s!"error_image_{index + 1}"
    extracted_text := "Processing failed"
    main_theme := "misc"
    confidence := 0 }

/-- PHASE 1 for one item at batch position `index`.  `oracle` is the raw
inference response (`.error` = the call threw, caught at lines 378–388).
A direct parse that yields JSON `null` makes the field accesses at lines
371–374 throw a `TypeError`, which the same catch turns into the error
record. -/
def analyzeItem (jp : String → Option JVal) (index : Nat)
    (oracle : Except Unit String) : InitialAnalysis :=
  match oracle with
  | .error _ => errorAnalysis index
  | .ok raw =>
    let clean := cleanResponse raw
    match parseWithRecovery jp clean index with
    | .null => errorAnalysis index
    | a =>
      { index := index
        content := ⟨collapseWs (jsStringOr (getField a "content") s!"image_document_{index + 1}").data⟩
        extracted_text := (jsStringOr (getField a "extracted_text") "").data.take 150 |> List.asString
        main_theme := jsLower (jsStringOr (getField a "main_theme") "misc")
        confidence := clampConfidence (getField a "confidence") }

/-! ## Category synthesizer (PHASE 2, route lines 392–461) -/

/-- Set insertion scan: keep each element the first time it appears, given
the elements already `seen`. -/
def dedupFirstAux (seen : List String) : List String → List String
  | [] => []
  | x :: rest =>
    if seen.contains x then dedupFirstAux seen rest
    else x :: dedupFirstAux (x :: seen) rest

/-- Insertion-order deduplication, `[...new Set(xs)]` (route line 446). -/
def dedupFirst (l : List String) : List String := dedupFirstAux [] l

/-- The member-index array of the fallback category for `theme`
(route lines 449–452): the batch positions whose analysis carries that
theme, as JSON numbers. -/
def themeImages (analyses : List InitialAnalysis) (theme : String) : List JVal :=
  ((analyses.enum.filter (fun p => p.2.main_theme == theme)).map
    (fun p => JVal.num (p.1 : ℚ)))

/-- One fallback category object (route lines 454–457). -/
def catObjFor (analyses : List InitialAnalysis) (theme : String) : JVal :=
  .obj [("description", .str ("Images related to " ++ theme)),
        ("images", .arr (themeImages analyses theme))]

/-- The deterministic theme-partition fallback categorization
(route lines 445–460): one category per distinct theme, insertion order. -/
def themeFallback (analyses : List InitialAnalysis) : JVal :=
  .obj [("categories",
    .obj ((dedupFirst (analyses.map (fun a => a.main_theme))).map
      (fun t => (t, catObjFor analyses t))))]

/-- PHASE 2 (route lines 423–461): one aggregate call; the raw response is
cleaned and parsed directly — with no brace-extraction retry — and any
throw (of the call or of `JSON.parse`) lands in the theme fallback. -/
def synthesize (jp : String → Option JVal) (oracle : Except Unit String)
    (analyses : List InitialAnalysis) : JVal :=
  match oracle with
  | .error _ => themeFallback analyses
  | .ok raw =>
    match jp (cleanResponse raw) with
    | some v => v
    | none => themeFallback analyses

/-! ## Result assembler (PHASE 3, route lines 463–491) -/

/-- A final per-item analysis (route lines 475–480). -/
structure ResultAnalysis where
  content : String
  category : String
  extracted_text : String
  confidence : ℚ
deriving DecidableEq

/-- A final per-item result (route lines 473–484).  The `status` and
`fileType` fields are the literals the route writes. -/
structure ResultEntry where
  index : Nat
  analysis : ResultAnalysis
  status : String
  fileType : String
deriving DecidableEq

/-- `categorization.categories || {}` for a non-null categorization
(route lines 466 and 489). -/
def categoriesOrEmpty (categorization : JVal) : JVal :=
  match getField categorization "categories" with
  | some v => if truthyV v then v else .obj []
  | none => .obj []

/-- `Object.entries`: field pairs of an object, index/element pairs of an
array, index/character pairs of a string, nothing for other primitives. -/
def jsEntries : JVal → List (String × JVal)
  | .obj fields => fields
  | .arr l => l.enum.map (fun p => (toString p.1, p.2))
  | .str s => s.data.enum.map (fun p => (toString p.1, JVal.str ⟨[p.2]⟩))
  | _ => []

/-- Is `v` the JSON number `q`?  (`===`, as used by `Array.includes` when the
probe is a number: only numbers can match.) -/
def isNum (q : ℚ) : JVal → Bool
  | .num q2 => q2 = q
  | _ => false

/-- `v.includes(i)` for a batch index `i`: element search on arrays,
substring search on strings (`includes` stringifies a non-string argument),
a `TypeError` on other receivers. -/
def jsIncludesNat (v : JVal) (i : Nat) : Except Unit Bool :=
  match v with
  | .arr l => .ok (l.any (isNum (i : ℚ)))
  | .str s => .ok (containsL (toString i).data s.data)
  | _ => .error ()

/-- The find callback `categoryInfo.images && categoryInfo.images.includes(index)`
(route lines 467–469).  Accessing `.images` on a `null` entry value throws,
as does calling `.includes` on a truthy non-array non-string. -/
def entryMatches (i : Nat) (info : JVal) : Except Unit Bool :=
  match info with
  | .null => .error ()
  | _ =>
    match getField info "images" with
    | some v => if truthyV v then jsIncludesNat v i else .ok false
    | none => .ok false

/-- `Object.entries(..).find(..)` over the category entries for batch index
`i`: the first entry whose callback returns true; a callback throw
propagates. -/
def findCategory (i : Nat) : List (String × JVal) → Except Unit (Option String)
  | [] => .ok none
  | (name, info) :: rest =>
    match entryMatches i info with
    | .error e => .error e
    | .ok true => .ok (some name)
    | .ok false => findCategory i rest

/-- Build one final result (route lines 473–484): the analysis fields are
copied from PHASE 1, the category is the found name or `'uncategorized'`,
and `status`/`fileType` are the constants `'success'`/`'image'`. -/
def toResultEntry (a : InitialAnalysis) (categoryName : String) : ResultEntry :=
  { index := a.index
    analysis :=
      { content := a.content
        category := categoryName
        extracted_text := a.extracted_text
        confidence := a.confidence }
    status := "success"
    fileType := "image" }

/-- The PHASE 3 map (route lines 464–485) from batch position `i` on: find
each item's category among `entries`; any callback throw aborts the whole
map. -/
def assembleFrom (entries : List (String × JVal)) :
    Nat → List InitialAnalysis → Except Unit (List ResultEntry)
  | _, [] => .ok []
  | i, a :: rest =>
    match findCategory i entries with
    | .error e => .error e
    | .ok found =>
      match assembleFrom entries (i + 1) rest with
      | .error e => .error e
      | .ok tail => .ok (toResultEntry a (found.getD "uncategorized") :: tail)

/-- PHASE 3 over the whole batch.  A `null` categorization makes the
`categorization.categories` access at route line 466 throw (escaping to the
outer catch); otherwise the entries of `categorization.categories || {}`
are searched for every item. -/
def buildResults (categorization : JVal) (analyses : List InitialAnalysis) :
    Except Unit (List ResultEntry) :=
  match categorization with
  | .null => .error ()
  | _ => assembleFrom (jsEntries (categoriesOrEmpty categorization)) 0 analyses

/-! ## Ingestion and the POST handler (route lines 250–500) -/

/-- One uploaded file part: declared MIME type and original name.  The raw
bytes are forwarded (possibly HEIC-transcoded) to the inference collaborator
only, and are not modelled. -/
structure FilePart where
  name : String
  type : String
deriving DecidableEq

/-- A normalized in-memory item (route line 271): items ingested from file
parts keep the file name, items from pre-encoded payloads have none. -/
structure Item where
  name : Option String
deriving DecidableEq

/-- The two accepted request shapes (route lines 257–269): multipart form
data, or a JSON body with pre-encoded image payloads. -/
inductive RequestBody where
  | multipart (files : List FilePart) (images : List String) (userPrompt : Option String)
  | jsonBody (images : List String) (userPrompt : Option String)
deriving DecidableEq

/-- The ingestion filter (route line 275): keep a file part iff its declared
type starts with `image/` or its name, lowercased, ends with `.heic`. -/
def keepFile (f : FilePart) : Bool :=
  startsWithL "image/".data f.type.data || endsWithL ".heic".data (jsLower f.name).data

/-- Collapse an empty prompt to absence (`x || undefined` at route line 263,
`userPrompt || null` at line 490). -/
def normPrompt : Option String → Option String
  | some s => if s = "" then none else some s
  | none => none

/-- The `userPrompt` variable after body parsing. -/
def requestPrompt : RequestBody → Option String
  | .multipart _ _ up => normPrompt up
  | .jsonBody _ up => up

/-- `allItems` (route lines 271–293): the kept file parts in order, then the
pre-encoded payloads. -/
def ingest : RequestBody → List Item
  | .multipart files images _ =>
    (files.filter keepFile).map (fun f => ⟨some f.name⟩) ++ images.map (fun _ => ⟨none⟩)
  | .jsonBody images _ => images.map (fun _ => ⟨none⟩)

/-- The external inference collaborator: the raw text of the per-item call
for each batch position, and of the single aggregate categorization call.
`.error` means the call threw. -/
structure Oracles where
  item : Nat → Except Unit String
  category : Except Unit String

/-- The response value: a success body (results, categories map, echoed
prompt) or an error body with its HTTP status. -/
inductive ApiResponse where
  | ok (results : List ResultEntry) (categories : JVal) (userPrompt : Option String)
  | err (msg : String) (status : Nat)

/-- PHASE 1 over the batch (route lines 315–390): every position gets
exactly one analysis, concurrently but independently. -/
def initialAnalyses (jp : String → Option JVal) (o : Oracles)
    (allItems : List Item) : List InitialAnalysis :=
  allItems.enum.map (fun p => analyzeItem jp p.1 (o.item p.1))

/-- The handler body after request parsing, on the ingested item list: the
two validation gates (lines 295–301), the three phases, and the response.
The second component counts the inference calls attempted. -/
def POSTcore (jp : String → Option JVal) (o : Oracles)
    (allItems : List Item) (up : Option String) : ApiResponse × Nat :=
  if allItems.length = 0 then (.err "No images provided" 400, 0)
  else if allItems.length > 10 then (.err "Maximum 10 images allowed" 400, 0)
  else
    let analyses := initialAnalyses jp o allItems
    let categorization := synthesize jp o.category analyses
    match buildResults categorization analyses with
    | .error _ => (.err "Internal server error" 500, allItems.length + 1)
    | .ok results =>
      (.ok results (categoriesOrEmpty categorization) (normPrompt up), allItems.length + 1)

/-- The `POST` handler (route lines 250–500). -/
def POST (jp : String → Option JVal) (o : Oracles) (req : RequestBody) :
    ApiResponse × Nat :=
  POSTcore jp o (ingest req) (requestPrompt req)

/-! ## Observation helpers and spec-side definitions -/

/-- Did the handler answer with a success body? -/
def respIsOk : ApiResponse → Bool
  | .ok _ _ _ => true
  | .err _ _ => false

/-- The result list of a success response (empty otherwise). -/
def respResults : ApiResponse → List ResultEntry
  | .ok rs _ _ => rs
  | .err _ _ => []

/-- The categories map of a success response (empty otherwise). -/
def respCategories : ApiResponse → JVal
  | .ok _ cats _ => cats
  | .err _ _ => .obj []

/-- Does this category's member-index list contain batch index `i`?  (The
spec's notion: a category holds a list of member indices.) -/
def memberContains (info : JVal) (i : Nat) : Bool :=
  match getField info "images" with
  | some (.arr l) => l.any (isNum (i : ℚ))
  | _ => false

/-- Modelled from the spec (§4.4): assign the first category, in iteration
order, whose member-index list contains the index; otherwise the reserved
name `"uncategorized"`. -/
def assignSpecCategory (entries : List (String × JVal)) (i : Nat) : String :=
  match entries.find? (fun p => memberContains p.2 i) with
  | some p => p.1
  | none => "uncategorized"

/-- A category entry is well formed when its value is not `null` and its
`images` field is either an array or falsy — exactly the shapes for which
the route's find callback cannot throw. -/
def wfEntry (info : JVal) : Bool :=
  match info with
  | .null => false
  | _ =>
    match getField info "images" with
    | some (.arr _) => true
    | some v => !truthyV v
    | none => true

/-! ## Concrete fixtures

Concrete instantiations of the two collaborators, used by the closed
evaluations below.  Each `JSON.parse` stand-in is a finite table that
agrees with real `JSON.parse` on every string it is applied to in this
file (`none` plays the role of a parse throw, which `JSON.parse` performs
on every non-JSON string). -/

/-- A parse collaborator that throws on every input. -/
def jpNone : String → Option JVal := fun _ => none

/-- Inference collaborator whose every call throws. -/
def oThrow : Oracles := ⟨fun _ => .error (), .error ()⟩

/-- Parse table knowing only the literal `null` (which `JSON.parse` accepts,
yielding JSON null). -/
def jpNull : String → Option JVal := fun s => if s = "null" then some .null else none

/-- The raw text `{"confidence":-5}`. -/
def confNeg : String := "\x7b\"confidence\":-5\x7d"

/-- Parse table for `confNeg`. -/
def jpConf : String → Option JVal := fun s =>
  if s = confNeg then some (.obj [("confidence", .num (-5))]) else none

/-- The raw text `{"confidence":85.5}`. -/
def confHalf : String := "\x7b\"confidence\":85.5\x7d"

/-- Parse table for `confHalf` (85.5 = 171/2 exactly). -/
def jpHalf : String → Option JVal := fun s =>
  if s = confHalf then some (.obj [("confidence", .num (mkRat 171 2))]) else none

/-- The raw text `{"categories":{"a":{"description":"d","images":[0,0]}}}`:
a parseable categorization that lists index 0 twice and index 1 not at all. -/
def catDup : String :=
  "\x7b\"categories\":\x7b\"a\":\x7b\"description\":\"d\",\"images\":[0,0]\x7d\x7d\x7d"

/-- The value `JSON.parse` gives for `catDup`. -/
def catDupVal : JVal :=
  .obj [("categories", .obj [("a", .obj [("description", .str "d"),
    ("images", .arr [.num 0, .num 0])])])]

/-- Parse table for `catDup`. -/
def jpDup : String → Option JVal := fun s => if s = catDup then some catDupVal else none

/-- The raw text `{"categories":{"a":{"description":"d","images":[0]}}}`. -/
def catGood : String :=
  "\x7b\"categories\":\x7b\"a\":\x7b\"description\":\"d\",\"images\":[0]\x7d\x7d\x7d"

/-- The value `JSON.parse` gives for `catGood`. -/
def catGoodVal : JVal :=
  .obj [("categories", .obj [("a", .obj [("description", .str "d"),
    ("images", .arr [.num 0])])])]

/-- `catGood` wrapped in junk: invalid as a whole, but containing a
parseable brace-delimited object. -/
def rawJunk : String := "x " ++ catGood ++ " y"

/-- Parse table knowing only `catGood` (so it throws on `rawJunk` itself,
exactly as `JSON.parse` would). -/
def jpGood : String → Option JVal := fun s => if s = catGood then some catGoodVal else none

/-- Ten image file parts plus one PDF part: eleven parts, ten images. -/
def elevenParts : List FilePart :=
  [⟨"a1.png", "image/png"⟩, ⟨"a2.png", "image/png"⟩, ⟨"a3.png", "image/png"⟩,
   ⟨"a4.png", "image/png"⟩, ⟨"a5.png", "image/png"⟩, ⟨"a6.png", "image/png"⟩,
   ⟨"a7.png", "image/png"⟩, ⟨"a8.png", "image/png"⟩, ⟨"a9.png", "image/png"⟩,
   ⟨"a10.png", "image/png"⟩, ⟨"doc.pdf", "application/pdf"⟩]

/-- A multipart request containing only a PDF file part. -/
def pdfOnlyReq : RequestBody := .multipart [⟨"doc.pdf", "application/pdf"⟩] [] none

/-! ## Helper lemmas -/

theorem analyzeItem_index (jp : String → Option JVal) (i : Nat)
    (oracle : Except Unit String) : (analyzeItem jp i oracle).index = i := by
  unfold analyzeItem
  cases oracle with
  | error e => rfl
  | ok raw =>
    simp only
    split <;> rfl

theorem initialAnalyses_length (jp : String → Option JVal) (o : Oracles)
    (items : List Item) : (initialAnalyses jp o items).length = items.length := by
  simp [initialAnalyses]

theorem initialAnalyses_get (jp : String → Option JVal) (o : Oracles)
    (items : List Item) (k : Nat) (h : k < (initialAnalyses jp o items).length) :
    (initialAnalyses jp o items).get ⟨k, h⟩ = analyzeItem jp k (o.item k) := by
  have hk : k < items.length := by
    simpa [initialAnalyses_length] using h
  simp [initialAnalyses, List.getElem_enum]

theorem jsMin_le (a b : ℚ) : jsMin a b ≤ a ∧ jsMin a b ≤ b := by
  unfold jsMin
  split <;> constructor <;> linarith

theorem le_jsMax (a b : ℚ) : a ≤ jsMax a b ∧ b ≤ jsMax a b := by
  unfold jsMax
  split <;> constructor <;> linarith

theorem clampConfidence_bounds (v : Option JVal) :
    0 ≤ clampConfidence v ∧ clampConfidence v ≤ 100 := by
  unfold clampConfidence jsMin jsMax
  split <;> (try split) <;> dsimp only <;> split_ifs <;> constructor <;> linarith

theorem clampConfidence_eq_zero_iff (v : Option JVal) :
    clampConfidence v = 0 ↔ ∃ q, jsNumber v = JNum.val q ∧ q < 0 := by
  unfold clampConfidence jsMin jsMax
  constructor
  · intro h
    revert h
    split
    · dsimp only; split_ifs <;> intro h <;> linarith
    · rename_i q hq
      dsimp only
      split_ifs
      all_goals intro h
      all_goals first
        | linarith
        | (exact ⟨q, hq, by linarith⟩)
        | (exact absurd h (by simp_all))
  · rintro ⟨q, hq, hneg⟩
    rw [hq]
    dsimp only
    have hne : ¬ q = 0 := by linarith
    simp only [hne, if_false]
    split_ifs with h1 h2 <;> linarith

theorem assembleFrom_ok_length (entries : List (String × JVal)) :
    ∀ (i : Nat) (as : List InitialAnalysis) (rs : List ResultEntry),
      assembleFrom entries i as = .ok rs → rs.length = as.length := by
  intro i as
  induction as generalizing i with
  | nil => intro rs h; simp [assembleFrom] at h; simp [← h]
  | cons a rest ih =>
    intro rs h
    unfold assembleFrom at h
    revert h
    split
    · intro h; cases h
    · split
      · intro h; cases h
      · rename_i found hfound tail htail
        intro h
        cases h
        simp [ih (i + 1) tail htail]

theorem assembleFrom_ok_get (entries : List (String × JVal)) :
    ∀ (i : Nat) (as : List InitialAnalysis) (rs : List ResultEntry),
      assembleFrom entries i as = .ok rs →
      ∀ (k : Nat) (h : k < as.length),
        ∃ found, findCategory (i + k) entries = .ok found ∧
          ∀ (h2 : k < rs.length),
            rs.get ⟨k, h2⟩ = toResultEntry (as.get ⟨k, h⟩) (found.getD "uncategorized") := by
  intro i as
  induction as generalizing i with
  | nil => intro rs _ k h; exact absurd h (by simp)
  | cons a rest ih =>
    intro rs hok k hk
    unfold assembleFrom at hok
    cases hfc : findCategory i entries with
    | error e => rw [hfc] at hok; cases hok
    | ok found =>
      rw [hfc] at hok
      cases hra : assembleFrom entries (i + 1) rest with
      | error e => rw [hra] at hok; simp at hok
      | ok tail =>
        rw [hra] at hok
        simp only [Except.ok.injEq] at hok
        subst hok
        cases k with
        | zero =>
          refine ⟨found, by simpa using hfc, ?_⟩
          intro h2
          rfl
        | succ k =>
          have hk2 : k < rest.length := by simpa using hk
          obtain ⟨found2, hf2, hget⟩ := ih (i + 1) tail hra k hk2
          refine ⟨found2, ?_, ?_⟩
          · rw [show i + (k + 1) = i + 1 + k by omega]
            exact hf2
          · intro h2
            have h3 : k < tail.length := by simpa using h2
            simpa using hget h3

theorem mem_dedupFirstAux (l : List String) :
    ∀ (seen : List String) (a : String),
      a ∈ dedupFirstAux seen l ↔ a ∈ l ∧ a ∉ seen := by
  induction l with
  | nil => intro seen a; simp [dedupFirstAux]
  | cons x rest ih =>
    intro seen a
    unfold dedupFirstAux
    by_cases hx : x ∈ seen
    · rw [if_pos (by simpa using hx)]
      rw [ih]
      simp only [List.mem_cons]
      constructor
      · rintro ⟨h1, h2⟩; exact ⟨Or.inr h1, h2⟩
      · rintro ⟨h1 | h1, h2⟩
        · subst h1; exact absurd hx h2
        · exact ⟨h1, h2⟩
    · rw [if_neg (by simpa using hx)]
      simp only [List.mem_cons, ih]
      constructor
      · rintro (h1 | ⟨h1, h2⟩)
        · subst h1; exact ⟨Or.inl rfl, hx⟩
        · refine ⟨Or.inr h1, fun hmem => h2 (by simp [hmem])⟩
      · rintro ⟨h1 | h1, h2⟩
        · subst h1; exact Or.inl rfl
        · by_cases hax : a = x
          · subst hax; exact Or.inl rfl
          · exact Or.inr ⟨h1, by simp [h2, hax]⟩

theorem nodup_dedupFirstAux (l : List String) :
    ∀ (seen : List String), (dedupFirstAux seen l).Nodup := by
  induction l with
  | nil => intro seen; simp [dedupFirstAux]
  | cons x rest ih =>
    intro seen
    unfold dedupFirstAux
    split
    · exact ih seen
    · refine List.nodup_cons.mpr ⟨?_, ih (x :: seen)⟩
      intro hmem
      have := (mem_dedupFirstAux rest (x :: seen) x).mp hmem
      simp at this

theorem mem_dedupFirst (l : List String) (a : String) :
    a ∈ dedupFirst l ↔ a ∈ l := by
  simp [dedupFirst, mem_dedupFirstAux]

theorem nodup_dedupFirst (l : List String) : (dedupFirst l).Nodup :=
  nodup_dedupFirstAux l []

theorem dedupFirst_ne_nil (l : List String) (h : l ≠ []) : dedupFirst l ≠ [] := by
  cases l with
  | nil => exact absurd rfl h
  | cons x rest => simp [dedupFirst, dedupFirstAux]

theorem themeImages_any_iff (analyses : List InitialAnalysis) (t : String) (j : Nat) :
    ((themeImages analyses t).any (isNum (j : ℚ)) = true) ↔
      ∃ h : j < analyses.length, (analyses.get ⟨j, h⟩).main_theme = t := by
  unfold themeImages
  simp only [List.any_eq_true, List.mem_map, List.mem_filter]
  constructor
  · rintro ⟨v, ⟨p, ⟨hpmem, hptheme⟩, rfl⟩, hnum⟩
    have hcast : (p.1 : ℚ) = (j : ℚ) := by simpa [isNum] using hnum
    have hpj : p.1 = j := by exact_mod_cast hcast
    have hget := List.mem_enum_iff_getElem?.mp hpmem
    rw [hpj] at hget
    obtain ⟨hlt, hval⟩ := List.getElem?_eq_some.mp hget
    refine ⟨hlt, ?_⟩
    have : analyses.get ⟨j, hlt⟩ = p.2 := hval
    rw [this]
    simpa using hptheme
  · rintro ⟨h, ht⟩
    refine ⟨JVal.num (j : ℚ), ⟨(j, analyses.get ⟨j, h⟩), ⟨?_, ?_⟩, rfl⟩, by simp [isNum]⟩
    · exact List.mem_enum_iff_getElem?.mpr (by simp [List.getElem?_eq_some, h])
    · simpa using ht

theorem themeImages_nodup (analyses : List InitialAnalysis) (t : String) :
    (themeImages analyses t).Nodup := by
  have henum : analyses.enum.Nodup :=
    List.Nodup.of_map Prod.fst (by rw [List.enum_map_fst]; exact List.nodup_range _)
  have hfil : (analyses.enum.filter (fun p => p.2.main_theme == t)).Nodup :=
    henum.filter _
  unfold themeImages
  refine hfil.map_on ?_
  intro x hx y hy hxy
  have h1 : (x.1 : ℚ) = (y.1 : ℚ) := by injection hxy
  have h2 : x.1 = y.1 := by exact_mod_cast h1
  have hx2 := List.mem_enum_iff_getElem?.mp (List.mem_of_mem_filter hx)
  have hy2 := List.mem_enum_iff_getElem?.mp (List.mem_of_mem_filter hy)
  rw [h2] at hx2
  rw [hx2] at hy2
  injection hy2 with h3
  exact Prod.ext h2 h3

theorem entryMatches_catObjFor (analyses : List InitialAnalysis) (t : String) (j : Nat) :
    entryMatches j (catObjFor analyses t) =
      .ok ((themeImages analyses t).any (isNum (j : ℚ))) := rfl

theorem memberContains_catObjFor (analyses : List InitialAnalysis) (t : String) (j : Nat) :
    memberContains (catObjFor analyses t) j =
      (themeImages analyses t).any (isNum (j : ℚ)) := rfl

theorem findCategory_themeEntries (analyses : List InitialAnalysis) (j : Nat)
    (hj : j < analyses.length) :
    ∀ (ts : List String), (analyses.get ⟨j, hj⟩).main_theme ∈ ts →
      findCategory j (ts.map fun t => (t, catObjFor analyses t)) =
        .ok (some ((analyses.get ⟨j, hj⟩).main_theme)) := by
  intro ts
  induction ts with
  | nil => intro hmem; cases hmem
  | cons t rest ih =>
    intro hmem
    have hstep : findCategory j
        (((t, catObjFor analyses t)) :: rest.map (fun t => (t, catObjFor analyses t))) =
        match entryMatches j (catObjFor analyses t) with
        | .error e => .error e
        | .ok true => .ok (some t)
        | .ok false => findCategory j (rest.map (fun t => (t, catObjFor analyses t))) := rfl
    simp only [List.map_cons]
    rw [hstep, entryMatches_catObjFor]
    cases hb : (themeImages analyses t).any (isNum (j : ℚ)) with
    | true =>
      obtain ⟨h2, ht⟩ := (themeImages_any_iff analyses t j).mp hb
      simp only
      rw [show (analyses.get ⟨j, hj⟩).main_theme = t from ht]
    | false =>
      simp only
      apply ih
      rcases List.mem_cons.mp hmem with h1 | h1
      · exfalso
        have : (themeImages analyses t).any (isNum (j : ℚ)) = true :=
          (themeImages_any_iff analyses t j).mpr ⟨hj, h1⟩
        rw [this] at hb
        cases hb
      · exact h1

theorem countP_themeEntries (analyses : List InitialAnalysis) (j : Nat)
    (hj : j < analyses.length) (ts : List String) (hnd : ts.Nodup)
    (hmem : (analyses.get ⟨j, hj⟩).main_theme ∈ ts) :
    ((ts.map fun t => (t, catObjFor analyses t)).countP
      (fun p => memberContains p.2 j)) = 1 := by
  rw [List.countP_map]
  have hpt : ∀ x ∈ ts,
      ((fun p => memberContains (p : String × JVal).2 j) ∘
        (fun t => (t, catObjFor analyses t))) x = true ↔
      (x == (analyses.get ⟨j, hj⟩).main_theme) = true := by
    intro t _
    simp only [Function.comp_apply]
    rw [memberContains_catObjFor]
    constructor
    · intro hb
      obtain ⟨h2, hteq⟩ := (themeImages_any_iff analyses t j).mp hb
      rw [← hteq]
      simp
    · intro hbeq
      have hteq : t = (analyses.get ⟨j, hj⟩).main_theme := by simpa using hbeq
      exact (themeImages_any_iff analyses t j).mpr ⟨hj, hteq.symm⟩
  rw [List.countP_congr hpt]
  have : ts.countP (fun t => t == (analyses.get ⟨j, hj⟩).main_theme) =
      ts.count ((analyses.get ⟨j, hj⟩).main_theme) := rfl
  rw [this]
  exact List.count_eq_one_of_mem hnd hmem

theorem assembleFrom_of_findCategory (entries : List (String × JVal)) :
    ∀ (i : Nat) (as : List InitialAnalysis),
      (∀ (k : Nat) (h : k < as.length),
        findCategory (i + k) entries = .ok (some ((as.get ⟨k, h⟩).main_theme))) →
      assembleFrom entries i as = .ok (as.map fun a => toResultEntry a a.main_theme) := by
  intro i as
  induction as generalizing i with
  | nil => intro _; rfl
  | cons a rest ih =>
    intro hf
    have h0 := hf 0 (by simp)
    unfold assembleFrom
    rw [show i + 0 = i from rfl] at h0
    rw [h0]
    rw [ih (i + 1) ?_]
    · rfl
    · intro k h
      have := hf (k + 1) (by simpa using Nat.succ_lt_succ h)
      rw [show i + (k + 1) = i + 1 + k by omega] at this
      simpa using this

theorem buildResults_themeFallback (analyses : List InitialAnalysis) :
    buildResults (themeFallback analyses) analyses =
      assembleFrom ((dedupFirst (analyses.map fun a => a.main_theme)).map
        (fun t => (t, catObjFor analyses t))) 0 analyses := rfl

theorem categoriesOrEmpty_themeFallback (analyses : List InitialAnalysis) :
    categoriesOrEmpty (themeFallback analyses) =
      .obj ((dedupFirst (analyses.map fun a => a.main_theme)).map
        (fun t => (t, catObjFor analyses t))) := rfl

theorem POSTcore_invalid (jp : String → Option JVal) (o : Oracles)
    (items : List Item) (up : Option String)
    (h : items.length = 0 ∨ 10 < items.length) :
    POSTcore jp o items up =
      (.err (if items.length = 0 then "No images provided" else "Maximum 10 images allowed")
        400, 0) := by
  unfold POSTcore
  rcases h with h | h
  · simp [h]
  · have h0 : ¬ items.length = 0 := by omega
    simp [h0, h]

theorem POSTcore_of_ok (jp : String → Option JVal) (o : Oracles)
    (items : List Item) (up : Option String) (rs : List ResultEntry)
    (h0 : 0 < items.length) (h10 : items.length ≤ 10)
    (hb : buildResults (synthesize jp o.category (initialAnalyses jp o items))
        (initialAnalyses jp o items) = .ok rs) :
    POSTcore jp o items up =
      (.ok rs (categoriesOrEmpty (synthesize jp o.category (initialAnalyses jp o items)))
        (normPrompt up), items.length + 1) := by
  unfold POSTcore
  rw [if_neg (by omega), if_neg (by omega)]
  simp only [hb]

theorem POSTcore_ok_inv (jp : String → Option JVal) (o : Oracles)
    (items : List Item) (up : Option String) (rs : List ResultEntry)
    (cats : JVal) (p2 : Option String)
    (h : (POSTcore jp o items up).1 = .ok rs cats p2) :
    0 < items.length ∧ items.length ≤ 10 ∧
    buildResults (synthesize jp o.category (initialAnalyses jp o items))
      (initialAnalyses jp o items) = .ok rs ∧
    cats = categoriesOrEmpty (synthesize jp o.category (initialAnalyses jp o items)) ∧
    p2 = normPrompt up := by
  unfold POSTcore at h
  by_cases h0 : items.length = 0
  · rw [if_pos h0] at h; cases h
  · rw [if_neg h0] at h
    by_cases h10 : items.length > 10
    · rw [if_pos h10] at h; cases h
    · rw [if_neg h10] at h
      simp only at h
      cases hb : buildResults (synthesize jp o.category (initialAnalyses jp o items))
          (initialAnalyses jp o items) with
      | error e => rw [hb] at h; cases h
      | ok results =>
        rw [hb] at h
        simp only [ApiResponse.ok.injEq] at h
        obtain ⟨hrs, hcats, hp⟩ := h
        exact ⟨by omega, by omega, congrArg Except.ok hrs, hcats.symm, hp.symm⟩


theorem entryMatches_wf (i : Nat) (info : JVal) (h : wfEntry info = true) :
    entryMatches i info = .ok (memberContains info i) := by
  cases info with
  | null => simp [wfEntry] at h
  | obj fields =>
    have hrw : entryMatches i (.obj fields) =
        (match getField (.obj fields) "images" with
         | some v => if truthyV v then jsIncludesNat v i else .ok false
         | none => .ok false) := rfl
    have hrw2 : memberContains (.obj fields) i =
        (match getField (.obj fields) "images" with
         | some (.arr l) => l.any (isNum (i : ℚ))
         | _ => false) := rfl
    have hrw3 : wfEntry (.obj fields) =
        (match getField (.obj fields) "images" with
         | some (.arr _) => true
         | some v => !truthyV v
         | none => true) := rfl
    rw [hrw3] at h
    rw [hrw, hrw2]
    cases hg : getField (.obj fields) "images" with
    | none => rfl
    | some v =>
      rw [hg] at h
      cases v with
      | arr l => simp [truthyV, jsIncludesNat]
      | str s =>
        simp only at h
        have : truthyV (.str s) = false := by simpa using h
        simp [this]
      | num q =>
        simp only at h
        have : truthyV (.num q) = false := by simpa using h
        simp [this]
      | bool b =>
        simp only at h
        have : truthyV (.bool b) = false := by simpa using h
        simp [this]
      | null => simp [truthyV]
      | obj f2 =>
        simp only at h
        have : truthyV (.obj f2) = false := by simpa using h
        simp [truthyV] at this
  | str s => rfl
  | num q => rfl
  | bool b => rfl
  | arr l => rfl

theorem findCategory_wf (i : Nat) :
    ∀ (entries : List (String × JVal)), (∀ p ∈ entries, wfEntry p.2 = true) →
      findCategory i entries =
        .ok ((entries.find? (fun p => memberContains p.2 i)).map Prod.fst) := by
  intro entries
  induction entries with
  | nil => intro _; rfl
  | cons e rest ih =>
    intro hwf
    obtain ⟨name, info⟩ := e
    have hrw : findCategory i ((name, info) :: rest) =
        (match entryMatches i info with
         | .error er => .error er
         | .ok true => .ok (some name)
         | .ok false => findCategory i rest) := rfl
    rw [hrw, entryMatches_wf i info (hwf (name, info) (by simp))]
    cases hm : memberContains info i with
    | true => simp [List.find?_cons, hm]
    | false =>
      rw [ih (fun p hp => hwf p (by simp [hp]))]
      simp [List.find?_cons, hm]

theorem assignSpecCategory_eq_getD (entries : List (String × JVal)) (i : Nat) :
    assignSpecCategory entries i =
      ((entries.find? (fun p => memberContains p.2 i)).map Prod.fst).getD "uncategorized" := by
  unfold assignSpecCategory
  cases entries.find? (fun p => memberContains p.2 i) <;> rfl

theorem analyzeItem_confidence_bounds (jp : String → Option JVal) (i : Nat)
    (oracle : Except Unit String) :
    0 ≤ (analyzeItem jp i oracle).confidence ∧ (analyzeItem jp i oracle).confidence ≤ 100 := by
  unfold analyzeItem
  cases oracle with
  | error e => simp [errorAnalysis]
  | ok raw =>
    simp only
    split
    · simp [errorAnalysis]
    · exact clampConfidence_bounds _

theorem assembleFrom_mem_shape (entries : List (String × JVal)) :
    ∀ (i : Nat) (as : List InitialAnalysis) (rs : List ResultEntry),
      assembleFrom entries i as = .ok rs →
      ∀ r ∈ rs, ∃ a ∈ as, ∃ name, r = toResultEntry a name := by
  intro i as
  induction as generalizing i with
  | nil => intro rs h r hr; simp [assembleFrom] at h; subst h; cases hr
  | cons a rest ih =>
    intro rs h r hr
    unfold assembleFrom at h
    cases hfc : findCategory i entries with
    | error e => rw [hfc] at h; cases h
    | ok found =>
      rw [hfc] at h
      cases hra : assembleFrom entries (i + 1) rest with
      | error e => rw [hra] at h; simp at h
      | ok tail =>
        rw [hra] at h
        simp only [Except.ok.injEq] at h
        subst h
        rcases List.mem_cons.mp hr with h1 | h1
        · exact ⟨a, by simp, found.getD "uncategorized", h1⟩
        · obtain ⟨a2, ha2, name2, hr2⟩ := ih (i + 1) tail hra r h1
          exact ⟨a2, by simp [ha2], name2, hr2⟩

theorem mem_initialAnalyses (jp : String → Option JVal) (o : Oracles)
    (items : List Item) (a : InitialAnalysis) (h : a ∈ initialAnalyses jp o items) :
    ∃ k, a = analyzeItem jp k (o.item k) := by
  unfold initialAnalyses at h
  obtain ⟨p, hp, rfl⟩ := List.mem_map.mp h
  exact ⟨p.1, rfl⟩

theorem buildResults_ok_elim (c : JVal) (as : List InitialAnalysis)
    (rs : List ResultEntry) (h : buildResults c as = .ok rs) :
    assembleFrom (jsEntries (categoriesOrEmpty c)) 0 as = .ok rs := by
  cases c <;> first | exact h | cases h

theorem synthesize_fallback (jp : String → Option JVal) (cat : Except Unit String)
    (analyses : List InitialAnalysis)
    (hcat : cat = .error () ∨ ∃ raw, cat = .ok raw ∧ jp (cleanResponse raw) = none) :
    synthesize jp cat analyses = themeFallback analyses := by
  rcases hcat with h | ⟨raw, hok, hnone⟩
  · rw [h]; rfl
  · rw [hok]
    show (match jp (cleanResponse raw) with
          | some v => v
          | none => themeFallback analyses) = themeFallback analyses
    rw [hnone]

theorem post_theme_fallback (jp : String → Option JVal) (o : Oracles) (req : RequestBody)
    (h1 : 1 ≤ (ingest req).length) (h10 : (ingest req).length ≤ 10)
    (hcat : o.category = .error () ∨
      ∃ raw, o.category = .ok raw ∧ jp (cleanResponse raw) = none) :
    POST jp o req =
      (.ok ((initialAnalyses jp o (ingest req)).map (fun a => toResultEntry a a.main_theme))
        (.obj ((dedupFirst ((initialAnalyses jp o (ingest req)).map fun a => a.main_theme)).map
          (fun t => (t, catObjFor (initialAnalyses jp o (ingest req)) t))))
        (normPrompt (requestPrompt req)), (ingest req).length + 1) := by
  have hsyn := synthesize_fallback jp o.category (initialAnalyses jp o (ingest req)) hcat
  have hbuild : buildResults (synthesize jp o.category (initialAnalyses jp o (ingest req)))
      (initialAnalyses jp o (ingest req)) =
      .ok ((initialAnalyses jp o (ingest req)).map (fun a => toResultEntry a a.main_theme)) := by
    rw [hsyn, buildResults_themeFallback]
    apply assembleFrom_of_findCategory
    intro k hk
    rw [show (0 : Nat) + k = k from by omega]
    apply findCategory_themeEntries
    rw [mem_dedupFirst]
    exact List.mem_map.mpr ⟨(initialAnalyses jp o (ingest req)).get ⟨k, hk⟩,
      List.get_mem _ k hk, rfl⟩
  unfold POST
  rw [POSTcore_of_ok jp o (ingest req) (requestPrompt req) _ (by omega) h10 hbuild]
  rw [hsyn, categoriesOrEmpty_themeFallback]

/-! ## Claim theorems -/

/-- C4: for every request whose ingested item count is 0 or greater than 10,
the handler returns the validation error response (HTTP 400, with the
route's respective message) and makes zero inference calls — the call
counter of the model is 0, so no per-item or aggregate call is attempted. -/
theorem c4_validation (jp : String → Option JVal) (o : Oracles) (req : RequestBody)
    (h : (ingest req).length = 0 ∨ 10 < (ingest req).length) :
    POST jp o req =
      (.err (if (ingest req).length = 0 then "No images provided"
             else "Maximum 10 images allowed") 400, 0) :=
  POSTcore_invalid jp o (ingest req) (requestPrompt req) h

/-- Witness for C4 at the empty JSON batch. -/
theorem c4_validation_witness :
    POST jpNone oThrow (.jsonBody [] none) = (.err "No images provided" 400, 0) :=
  (c4_validation jpNone oThrow (.jsonBody [] none) (Or.inl rfl)).trans (by rfl)

/-- C2 (code evaluation at the failing input): a valid single-item batch
whose per-item inference call throws (the categorization call throws too,
so the theme fallback categorizes).  The final result carries the
error-fallback analysis — content `"error_image_1"`, confidence 0 — but its
`status` field is the constant `"success"`: PHASE 3 (route line 481)
hardcodes `status: 'success'` for every item, so no Result ever has
status `"error"` in this code, contradicting the claim and the spec. -/
theorem c2_code_eval :
    POST jpNone oThrow (.jsonBody ["payload"] none) =
      (.ok [⟨0, ⟨"error_image_1", "misc", "Processing failed", 0⟩, "success", "image"⟩]
        (.obj [("misc", .obj [("description", .str "Images related to misc"),
                              ("images", .arr [.num 0])])])
        none, 2) := by rfl

/-- C3 (counterexample): a valid batch of size 1 whose aggregate
categorization response is the parseable JSON literal `null`: the
`categorization.categories` access at route line 466 throws, the outer
catch produces the internal error response, and no Result list is returned
at all — so the claim's "exactly n entries" fails for this valid batch. -/
theorem c3_counterexample :
    POST jpNull ⟨fun _ => .error (), .ok "null"⟩ (.jsonBody ["payload"] none) =
      (.err "Internal server error" 500, 2) := by rfl

/-- C3 (amended): for every valid batch of size n in [1,10], whenever the
handler returns a success response at all (assembling did not hit a
JavaScript type error from a pathological parsed categorization such as
JSON null — in which case the internal error response is returned
instead), the Result list has exactly n entries whose index fields are
0..n-1 in input order. -/
theorem c3_amended (jp : String → Option JVal) (o : Oracles) (req : RequestBody)
    (_h1 : 1 ≤ (ingest req).length) (_h10 : (ingest req).length ≤ 10)
    (rs : List ResultEntry) (cats : JVal) (up : Option String)
    (h : (POST jp o req).1 = .ok rs cats up) :
    rs.length = (ingest req).length ∧
    ∀ (k : Nat) (hk : k < rs.length), (rs.get ⟨k, hk⟩).index = k := by
  obtain ⟨h0, h10b, hb, _, _⟩ :=
    POSTcore_ok_inv jp o (ingest req) (requestPrompt req) rs cats up h
  have hb2 := buildResults_ok_elim _ _ _ hb
  have hlen := assembleFrom_ok_length _ 0 _ rs hb2
  rw [initialAnalyses_length] at hlen
  refine ⟨hlen, ?_⟩
  intro k hk
  have hk2 : k < (initialAnalyses jp o (ingest req)).length := by
    rw [initialAnalyses_length]; omega
  obtain ⟨found, hf, hget⟩ := assembleFrom_ok_get _ 0 _ rs hb2 k hk2
  rw [hget hk]
  show ((initialAnalyses jp o (ingest req)).get ⟨k, hk2⟩).index = k
  rw [initialAnalyses_get, analyzeItem_index]

/-- Witness for C3 (amended) at a concrete single-item batch. -/
theorem c3_amended_witness :
    ([(⟨0, ⟨"error_image_1", "misc", "Processing failed", 0⟩, "success", "image"⟩ :
      ResultEntry)].length = (ingest (RequestBody.jsonBody ["payload"] none)).length) :=
  (c3_amended jpNone oThrow (.jsonBody ["payload"] none) (by decide) (by decide)
    [⟨0, ⟨"error_image_1", "misc", "Processing failed", 0⟩, "success", "image"⟩]
    (.obj [("misc", .obj [("description", .str "Images related to misc"),
                          ("images", .arr [.num 0])])])
    none (by rfl)).1

/-- C6: for every valid batch, if the aggregate categorization call throws
or its cleaned output fails to parse, the response is still a success whose
categories map is the deterministic theme partition — a non-empty map with
one category per distinct theme value (in first-occurrence order), each
described as "Images related to {theme}", every batch index lying in
exactly one category's member list, and every item's Result carrying its
own theme as its category. -/
theorem c6_theme_fallback (jp : String → Option JVal) (o : Oracles) (req : RequestBody)
    (h1 : 1 ≤ (ingest req).length) (h10 : (ingest req).length ≤ 10)
    (hcat : o.category = .error () ∨
      ∃ raw, o.category = .ok raw ∧ jp (cleanResponse raw) = none) :
    POST jp o req =
      (.ok ((initialAnalyses jp o (ingest req)).map (fun a => toResultEntry a a.main_theme))
        (.obj ((dedupFirst ((initialAnalyses jp o (ingest req)).map fun a => a.main_theme)).map
          (fun t => (t, catObjFor (initialAnalyses jp o (ingest req)) t))))
        (normPrompt (requestPrompt req)), (ingest req).length + 1) ∧
    ((dedupFirst ((initialAnalyses jp o (ingest req)).map fun a => a.main_theme)).map
      (fun t => (t, catObjFor (initialAnalyses jp o (ingest req)) t))) ≠ [] ∧
    ((dedupFirst ((initialAnalyses jp o (ingest req)).map fun a => a.main_theme)).map
      (fun t => (t, catObjFor (initialAnalyses jp o (ingest req)) t))).map Prod.fst =
      dedupFirst ((initialAnalyses jp o (ingest req)).map fun a => a.main_theme) ∧
    (∀ p ∈ ((dedupFirst ((initialAnalyses jp o (ingest req)).map fun a => a.main_theme)).map
      (fun t => (t, catObjFor (initialAnalyses jp o (ingest req)) t))),
      getField p.2 "description" = some (.str ("Images related to " ++ p.1))) ∧
    (∀ i : Nat, i < (ingest req).length →
      (((dedupFirst ((initialAnalyses jp o (ingest req)).map fun a => a.main_theme)).map
        (fun t => (t, catObjFor (initialAnalyses jp o (ingest req)) t))).countP
        (fun p => memberContains p.2 i)) = 1) := by
  refine ⟨post_theme_fallback jp o req h1 h10 hcat, ?_, ?_, ?_, ?_⟩
  · intro hnil
    have hth : ((initialAnalyses jp o (ingest req)).map fun a => a.main_theme) ≠ [] := by
      intro hcon
      have hlen := congrArg List.length hcon
      rw [List.length_map, initialAnalyses_length, List.length_nil] at hlen
      omega
    exact dedupFirst_ne_nil _ hth (List.map_eq_nil_iff.mp hnil)
  · generalize dedupFirst ((initialAnalyses jp o (ingest req)).map fun a => a.main_theme) = ts
    induction ts with
    | nil => rfl
    | cons t rest ih => simp only [List.map_cons, ih]
  · intro p hp
    obtain ⟨t, ht, rfl⟩ := List.mem_map.mp hp
    rfl
  · intro i hi
    have hi2 : i < (initialAnalyses jp o (ingest req)).length := by
      rw [initialAnalyses_length]; omega
    exact countP_themeEntries (initialAnalyses jp o (ingest req)) i hi2 _
      (nodup_dedupFirst _)
      ((mem_dedupFirst _ _).mpr
        (List.mem_map.mpr ⟨(initialAnalyses jp o (ingest req)).get ⟨i, hi2⟩,
          List.get_mem _ i hi2, rfl⟩))

/-- Witness for C6 at a concrete single-item batch with a throwing
categorization call. -/
theorem c6_theme_fallback_witness :
    POST jpNone oThrow (.jsonBody ["payload"] none) =
      (.ok ((initialAnalyses jpNone oThrow (ingest (RequestBody.jsonBody ["payload"] none))).map
        (fun a => toResultEntry a a.main_theme))
        (.obj ((dedupFirst ((initialAnalyses jpNone oThrow
            (ingest (RequestBody.jsonBody ["payload"] none))).map fun a => a.main_theme)).map
          (fun t => (t, catObjFor (initialAnalyses jpNone oThrow
            (ingest (RequestBody.jsonBody ["payload"] none))) t))))
        (normPrompt (requestPrompt (RequestBody.jsonBody ["payload"] none))),
        (ingest (RequestBody.jsonBody ["payload"] none)).length + 1) :=
  (c6_theme_fallback jpNone oThrow (.jsonBody ["payload"] none)
    (by decide) (by decide) (Or.inl rfl)).1

/-- C1 (counterexample): a valid batch of two items whose parsed
categorization lists index 0 twice inside one category and index 1 not at
all.  The handler returns that map unchanged: index 1 lies in no category
of the response's map (the union over the map misses it, and no
"uncategorized" entry is added to the map — the reserved name appears only
in item 1's Result), and the single member list repeats index 0. -/
theorem c1_counterexample :
    POST jpDup ⟨fun _ => .error (), .ok catDup⟩ (.jsonBody ["p", "q"] none) =
      (.ok [⟨0, ⟨"error_image_1", "a", "Processing failed", 0⟩, "success", "image"⟩,
            ⟨1, ⟨"error_image_2", "uncategorized", "Processing failed", 0⟩, "success", "image"⟩]
        (.obj [("a", .obj [("description", .str "d"),
                           ("images", .arr [.num 0, .num 0])])])
        none, 3) ∧
    ((jsEntries (.obj [("a", .obj [("description", .str "d"),
        ("images", .arr [.num 0, .num 0])])])).countP
      (fun p => memberContains p.2 1)) = 0 ∧
    ¬ ([JVal.num 0, JVal.num 0] : List JVal).Nodup := by
  refine ⟨by rfl, by rfl, ?_⟩
  intro hnd
  rcases List.nodup_cons.mp hnd with ⟨hnmem, _⟩
  exact hnmem (by simp)

/-- C1 (amended): each item always receives exactly one category name in
its Result, and on the theme-fallback path (categorization call throws or
its output is unparseable) the response's categories map partitions the
batch exactly: every index lies in exactly one category's member list and
no member list repeats an index.  When the synthesizer's raw output
parses, however, the parsed value's `categories` field is returned
unmodified (`categorization.categories || {}`), so omissions and
duplicates in it survive to the response and no reserved "uncategorized"
entry is added to the map. -/
theorem c1_amended (jp : String → Option JVal) (o : Oracles) (req : RequestBody)
    (h1 : 1 ≤ (ingest req).length) (h10 : (ingest req).length ≤ 10) :
    ((o.category = .error () ∨
        ∃ raw, o.category = .ok raw ∧ jp (cleanResponse raw) = none) →
      (∀ i : Nat, i < (ingest req).length →
        (jsEntries (respCategories (POST jp o req).1)).countP
          (fun p => memberContains p.2 i) = 1) ∧
      (∀ p ∈ jsEntries (respCategories (POST jp o req).1),
        ∃ l, getField p.2 "images" = some (.arr l) ∧ l.Nodup)) ∧
    (∀ (raw : String) (v : JVal), o.category = .ok raw → jp (cleanResponse raw) = some v →
      ∀ (rs : List ResultEntry) (cats : JVal) (up : Option String),
        (POST jp o req).1 = .ok rs cats up → cats = categoriesOrEmpty v) := by
  constructor
  · intro hcat
    have hpost := post_theme_fallback jp o req h1 h10 hcat
    have hresp : respCategories (POST jp o req).1 =
        .obj ((dedupFirst ((initialAnalyses jp o (ingest req)).map fun a => a.main_theme)).map
          (fun t => (t, catObjFor (initialAnalyses jp o (ingest req)) t))) := by
      rw [hpost]
      rfl
    rw [hresp]
    constructor
    · intro i hi
      have hi2 : i < (initialAnalyses jp o (ingest req)).length := by
        rw [initialAnalyses_length]; omega
      exact countP_themeEntries (initialAnalyses jp o (ingest req)) i hi2 _
        (nodup_dedupFirst _)
        ((mem_dedupFirst _ _).mpr
          (List.mem_map.mpr ⟨(initialAnalyses jp o (ingest req)).get ⟨i, hi2⟩,
            List.get_mem _ i hi2, rfl⟩))
    · intro p hp
      obtain ⟨t, ht, rfl⟩ := List.mem_map.mp hp
      exact ⟨themeImages (initialAnalyses jp o (ingest req)) t, rfl,
        themeImages_nodup _ _⟩
  · intro raw v hok hsome rs cats up hpost
    obtain ⟨_, _, _, hcats, _⟩ :=
      POSTcore_ok_inv jp o (ingest req) (requestPrompt req) rs cats up hpost
    rw [hcats]
    have : synthesize jp o.category (initialAnalyses jp o (ingest req)) = v := by
      rw [hok]
      show (match jp (cleanResponse raw) with
            | some v => v
            | none => themeFallback (initialAnalyses jp o (ingest req))) = v
      rw [hsome]
    rw [this]

/-- Witness for C1 (amended) at a concrete single-item batch on the
fallback path. -/
theorem c1_amended_witness :
    (jsEntries (respCategories (POST jpNone oThrow (.jsonBody ["payload"] none)).1)).countP
      (fun p => memberContains p.2 0) = 1 :=
  ((c1_amended jpNone oThrow (.jsonBody ["payload"] none) (by decide) (by decide)).1
    (Or.inl rfl)).1 0 (by decide)

/-- C5 (counterexample): a categorization response that is invalid as a
whole but contains a parseable brace-delimited JSON object.  The per-item
recovery (step 2) would extract and parse it — `parseWithRecovery` returns
the object — but the Synthesizer performs no such retry: the pipeline falls
back to the theme partition, and the response's category names are
`["misc"]`, not the parsed object's `["a"]`. -/
theorem c5_counterexample :
    jpGood (cleanResponse rawJunk) = none ∧
    extractBraces (cleanResponse rawJunk) = some catGood ∧
    jpGood catGood = some catGoodVal ∧
    parseWithRecovery jpGood (cleanResponse rawJunk) 0 = catGoodVal ∧
    (jsEntries (respCategories
      (POST jpGood ⟨fun _ => .error (), .ok rawJunk⟩ (.jsonBody ["p"] none)).1)).map
      Prod.fst = ["misc"] ∧
    (jsEntries (categoriesOrEmpty catGoodVal)).map Prod.fst = ["a"] ∧
    ("misc" : String) ≠ "a" := by
  exact ⟨rfl, rfl, rfl, rfl, rfl, rfl, by decide⟩

/-- C5 (amended): the Synthesizer applies only the fence-cleaning and the
direct structured parse; whenever the direct parse of the cleaned
aggregate response fails — even if a brace-delimited substring of it would
parse, as the per-item Analyzer's step-2 recovery (also stated here) would
exploit — the categorization used for the response is the deterministic
theme fallback. -/
theorem c5_amended (jp : String → Option JVal) (o : Oracles) (req : RequestBody)
    (raw : String) (hok : o.category = .ok raw) (hnone : jp (cleanResponse raw) = none)
    (h1 : 1 ≤ (ingest req).length) (h10 : (ingest req).length ≤ 10) :
    respCategories (POST jp o req).1 =
      .obj ((dedupFirst ((initialAnalyses jp o (ingest req)).map fun a => a.main_theme)).map
        (fun t => (t, catObjFor (initialAnalyses jp o (ingest req)) t))) ∧
    (∀ (clean : String) (i : Nat) (sub : String) (a : JVal),
      jp clean = none → extractBraces clean = some sub → jp sub = some a →
      truthyV a = true → parseWithRecovery jp clean i = a) := by
  constructor
  · rw [post_theme_fallback jp o req h1 h10 (Or.inr ⟨raw, hok, hnone⟩)]
    rfl
  · intro clean i sub a hn he hs ht
    unfold parseWithRecovery
    rw [hn]
    show (match extractBraces clean with
          | some sub =>
            match jp sub with
            | some a => if truthyV a then a else fallbackJson i
            | none => fallbackJson i
          | none => fallbackJson i) = a
    rw [he]
    show (match jp sub with
          | some a => if truthyV a then a else fallbackJson i
          | none => fallbackJson i) = a
    rw [hs]
    show (if truthyV a then a else fallbackJson i) = a
    rw [if_pos ht]

/-- Witness for C5 (amended) at the junk-wrapped categorization fixture. -/
theorem c5_amended_witness :
    respCategories (POST jpGood ⟨fun _ => .error (), .ok rawJunk⟩ (.jsonBody ["p"] none)).1 =
      .obj ((dedupFirst ((initialAnalyses jpGood ⟨fun _ => .error (), .ok rawJunk⟩
          (ingest (RequestBody.jsonBody ["p"] none))).map fun a => a.main_theme)).map
        (fun t => (t, catObjFor (initialAnalyses jpGood ⟨fun _ => .error (), .ok rawJunk⟩
          (ingest (RequestBody.jsonBody ["p"] none))) t))) :=
  (c5_amended jpGood ⟨fun _ => .error (), .ok rawJunk⟩ (.jsonBody ["p"] none)
    rawJunk rfl (by rfl) (by decide) (by decide)).1

/-- C7 (counterexample): a per-item response parsing to
`{"confidence": 85.5}` passes through `Math.min(100, Math.max(0, x || 50))`
unchanged: the final Result carries confidence 171/2, whose denominator is
2 and which equals no integer — refuting the claim that confidence values
in Results are always integers. -/
theorem c7_counterexample :
    (respResults (POST jpHalf ⟨fun _ => .ok confHalf, .error ()⟩
        (.jsonBody ["payload"] none)).1).map (fun r => r.analysis.confidence) =
      [mkRat 171 2] ∧
    (mkRat 171 2).den = 2 ∧
    ∀ k : ℤ, (mkRat 171 2 : ℚ) ≠ (k : ℚ) := by
  refine ⟨by rfl, by decide, ?_⟩
  intro k hk
  have hden : (mkRat 171 2).den = 1 := by rw [hk]; exact Rat.den_intCast k
  rw [show (mkRat 171 2).den = 2 from by decide] at hden
  cases hden

/-- C7 (amended): confidence is always clamped into [0,100] — a returned
150 becomes 100, a returned −5 becomes 0, a non-numeric value defaults to
50, and every Result of every success response satisfies the bounds — but
it need not be an integer: fractional values pass through unrounded. -/
theorem c7_amended :
    (∀ v : Option JVal, 0 ≤ clampConfidence v ∧ clampConfidence v ≤ 100) ∧
    clampConfidence (some (.num 150)) = 100 ∧
    clampConfidence (some (.num (-5))) = 0 ∧
    clampConfidence (some (.str "not a number")) = 50 ∧
    (∀ (jp : String → Option JVal) (o : Oracles) (req : RequestBody)
      (rs : List ResultEntry) (cats : JVal) (up : Option String),
      (POST jp o req).1 = .ok rs cats up →
      ∀ r ∈ rs, 0 ≤ r.analysis.confidence ∧ r.analysis.confidence ≤ 100) := by
  refine ⟨clampConfidence_bounds, rfl, rfl, rfl, ?_⟩
  intro jp o req rs cats up h r hr
  obtain ⟨_, _, hb, _, _⟩ :=
    POSTcore_ok_inv jp o (ingest req) (requestPrompt req) rs cats up h
  have hb2 := buildResults_ok_elim _ _ _ hb
  obtain ⟨a, ha, name, rfl⟩ := assembleFrom_mem_shape _ 0 _ rs hb2 r hr
  obtain ⟨k, rfl⟩ := mem_initialAnalyses jp o (ingest req) a ha
  exact analyzeItem_confidence_bounds jp k (o.item k)

/-- Witness for C7 (amended) at the fractional-confidence fixture. -/
theorem c7_amended_witness :
    0 ≤ ((⟨0, ⟨"image_document_1", "misc", "", mkRat 171 2⟩, "success", "image"⟩ :
        ResultEntry)).analysis.confidence ∧
    ((⟨0, ⟨"image_document_1", "misc", "", mkRat 171 2⟩, "success", "image"⟩ :
        ResultEntry)).analysis.confidence ≤ 100 :=
  c7_amended.2.2.2.2 jpHalf ⟨fun _ => .ok confHalf, .error ()⟩ (.jsonBody ["payload"] none)
    [⟨0, ⟨"image_document_1", "misc", "", mkRat 171 2⟩, "success", "image"⟩]
    (.obj [("misc", .obj [("description", .str "Images related to misc"),
                          ("images", .arr [.num 0])])])
    none (by rfl) _ (by simp)

/-- C8: whenever the handler returns a success response and every category
entry of its map is well formed (the entry value is not JSON null and its
`images` field is an array or falsy — the shapes on which the route's find
callback cannot throw), each Result's category equals the spec-side
assignment: the first category in the map's iteration order whose
member-index list contains the item's index, and the reserved name
"uncategorized" when none does; in particular an index listed by several
categories is claimed by the earliest one only. -/
theorem c8_first_match (jp : String → Option JVal) (o : Oracles) (req : RequestBody)
    (rs : List ResultEntry) (cats : JVal) (up : Option String)
    (h : (POST jp o req).1 = .ok rs cats up)
    (hwf : ∀ p ∈ jsEntries cats, wfEntry p.2 = true) :
    ∀ (k : Nat) (hk : k < rs.length),
      (rs.get ⟨k, hk⟩).analysis.category = assignSpecCategory (jsEntries cats) k := by
  obtain ⟨h0, h10, hb, hcats, hp⟩ :=
    POSTcore_ok_inv jp o (ingest req) (requestPrompt req) rs cats up h
  subst hcats
  have hb2 := buildResults_ok_elim _ _ _ hb
  intro k hk
  have hk2 : k < (initialAnalyses jp o (ingest req)).length := by
    have := assembleFrom_ok_length _ 0 _ rs hb2
    omega
  obtain ⟨found, hf, hget⟩ := assembleFrom_ok_get _ 0 _ rs hb2 k hk2
  rw [hget hk]
  rw [findCategory_wf (0 + k) _ hwf] at hf
  have hfound : found = ((jsEntries (categoriesOrEmpty
      (synthesize jp o.category (initialAnalyses jp o (ingest req))))).find?
        (fun p => memberContains p.2 (0 + k))).map Prod.fst := by
    injection hf with h2
    exact h2.symm
  show found.getD "uncategorized" = _
  rw [hfound, show (0 : Nat) + k = k from by omega, assignSpecCategory_eq_getD]

/-- Witness for C8 at a concrete run whose parsed categorization has one
well-formed category listing index 0 twice. -/
theorem c8_first_match_witness :
    (([⟨0, ⟨"error_image_1", "a", "Processing failed", 0⟩, "success", "image"⟩,
       ⟨1, ⟨"error_image_2", "uncategorized", "Processing failed", 0⟩, "success", "image"⟩] :
      List ResultEntry).get ⟨0, by decide⟩).analysis.category =
      assignSpecCategory (jsEntries (.obj [("a", .obj [("description", .str "d"),
        ("images", .arr [.num 0, .num 0])])])) 0 :=
  c8_first_match jpDup ⟨fun _ => .error (), .ok catDup⟩ (.jsonBody ["p", "q"] none)
    [⟨0, ⟨"error_image_1", "a", "Processing failed", 0⟩, "success", "image"⟩,
     ⟨1, ⟨"error_image_2", "uncategorized", "Processing failed", 0⟩, "success", "image"⟩]
    (.obj [("a", .obj [("description", .str "d"), ("images", .arr [.num 0, .num 0])])])
    none (by rfl) (by decide) 0 (by decide)

/-- C9 (counterexample): with the per-item inference call succeeding and its
response parsing to `{"confidence": -5}`, the final Result carries
confidence 0 on the success path — its content is the parse-path default
`"image_document_1"`, not the thrown-error record's `"error_image_1"` — so
a confidence of 0 in the final output does not only arise from the
thrown-error fallback record. -/
theorem c9_counterexample :
    POST jpConf ⟨fun _ => .ok confNeg, .error ()⟩ (.jsonBody ["payload"] none) =
      (.ok [⟨0, ⟨"image_document_1", "misc", "", 0⟩, "success", "image"⟩]
        (.obj [("misc", .obj [("description", .str "Images related to misc"),
                              ("images", .arr [.num 0])])])
        none, 2) ∧
    ("image_document_1" : String) ≠ "error_image_1" := by
  exact ⟨by rfl, by decide⟩

/-- C9 (amended): a parsed confidence of exactly 0, or a falsy value such
as the empty string or an absent field, indeed yields 50; and a final
confidence of 0 arises exactly when the parsed confidence is a negative
number (clamped up to 0) — in addition to the error-fallback record, which
is produced when the call throws or the parsed value is JSON null. -/
theorem c9_amended :
    clampConfidence (some (.num 0)) = 50 ∧
    clampConfidence (some (.str "")) = 50 ∧
    clampConfidence none = 50 ∧
    (∀ v : Option JVal,
      clampConfidence v = 0 ↔ ∃ q, jsNumber v = JNum.val q ∧ q < 0) ∧
    (∀ (jp : String → Option JVal) (i : Nat) (raw : String),
      (analyzeItem jp i (.ok raw)).confidence = 0 →
      parseWithRecovery jp (cleanResponse raw) i = .null ∨
      ∃ q, jsNumber (getField (parseWithRecovery jp (cleanResponse raw) i) "confidence") =
        JNum.val q ∧ q < 0) := by
  refine ⟨rfl, rfl, rfl, clampConfidence_eq_zero_iff, ?_⟩
  intro jp i raw h
  unfold analyzeItem at h
  simp only at h
  cases hp : parseWithRecovery jp (cleanResponse raw) i with
  | null => exact Or.inl rfl
  | str s =>
    rw [hp] at h
    exact Or.inr ((clampConfidence_eq_zero_iff _).mp h)
  | num q =>
    rw [hp] at h
    exact Or.inr ((clampConfidence_eq_zero_iff _).mp h)
  | bool b =>
    rw [hp] at h
    exact Or.inr ((clampConfidence_eq_zero_iff _).mp h)
  | arr l =>
    rw [hp] at h
    exact Or.inr ((clampConfidence_eq_zero_iff _).mp h)
  | obj fs =>
    rw [hp] at h
    exact Or.inr ((clampConfidence_eq_zero_iff _).mp h)

/-- Witness for C9 (amended) at the negative-confidence fixture. -/
theorem c9_amended_witness :
    parseWithRecovery jpConf (cleanResponse confNeg) 0 = .null ∨
    ∃ q, jsNumber (getField (parseWithRecovery jpConf (cleanResponse confNeg) 0)
      "confidence") = JNum.val q ∧ q < 0 :=
  c9_amended.2.2.2.2 jpConf 0 confNeg (by rfl)

/-- C10: a multipart file part whose declared type does not start with
`image/` and whose lowercased name does not end with `.heic` is silently
excluded before the count validation — the handler's whole behaviour
(response and call count) is as if the part were absent; consequently an
eleven-part request with ten image parts still passes validation and
returns a success response after eleven inference calls, while a request
containing only a PDF part yields the "No images provided" validation
error. -/
theorem c10_filter (jp : String → Option JVal) (o : Oracles)
    (fs1 fs2 : List FilePart) (f : FilePart) (imgs : List String)
    (up : Option String) (h : keepFile f = false) :
    POST jp o (.multipart (fs1 ++ f :: fs2) imgs up) =
      POST jp o (.multipart (fs1 ++ fs2) imgs up) ∧
    (POST jpNone oThrow (.multipart elevenParts [] none)).2 = 11 ∧
    respIsOk (POST jpNone oThrow (.multipart elevenParts [] none)).1 = true ∧
    (POST jpNone oThrow pdfOnlyReq).1 = .err "No images provided" 400 := by
  refine ⟨?_, by rfl, by rfl, by rfl⟩
  unfold POST
  have hing : ingest (.multipart (fs1 ++ f :: fs2) imgs up) =
      ingest (.multipart (fs1 ++ fs2) imgs up) := by
    show ((fs1 ++ f :: fs2).filter keepFile).map (fun g => Item.mk (some g.name)) ++
        imgs.map (fun _ => Item.mk none) =
      ((fs1 ++ fs2).filter keepFile).map (fun g => Item.mk (some g.name)) ++
        imgs.map (fun _ => Item.mk none)
    rw [List.filter_append, List.filter_append, List.filter_cons, h]
    simp
  rw [hing]
  rfl

/-- Witness for C10 at a concrete PDF part alongside one image part. -/
theorem c10_filter_witness :
    POST jpNone oThrow
        (.multipart ([⟨"a1.png", "image/png"⟩] ++ ⟨"doc.pdf", "application/pdf"⟩ :: [])
          [] none) =
      POST jpNone oThrow (.multipart ([⟨"a1.png", "image/png"⟩] ++ []) [] none) :=
  (c10_filter jpNone oThrow [⟨"a1.png", "image/png"⟩] [] ⟨"doc.pdf", "application/pdf"⟩
    [] none (by rfl)).1
